import Mathlib

/-!
Shallow embedding of the LZW codec of `src/image_compression/src/compression/lzw.rs`.

Bytes (`u8` in the source) are modelled as `Nat`; theorems that depend on the
`u8` range carry the hypothesis that every byte is `< 256`.  Codes (`usize`)
are `Nat`.  The encoder's `HashMap<Vec<u8>, usize>` is modelled as an
association list: the algorithm only uses `contains_key`, `get` and `insert`
(never iteration), and every inserted key is fresh, so an association list has
exactly the same observable behaviour.  `usize::to_be_bytes` on the standard
64-bit target yields 8 bytes, which the embedding reproduces faithfully.
Rust out-of-bounds indexing (`w[0]` / `entry[0]` on an empty vector, which
aborts the process) is modelled as an explicit `DResult.panic` outcome.
-/

namespace LZW

/-- `CompressionError` from `src/compression/error.rs` (the two variants used
by the LZW codec). -/
inductive CompressionError where
  | Compression : String → CompressionError
  | Decompression : String → CompressionError
deriving DecidableEq, Repr

/-- Result of a fallible computation that can also abort: `ok`/`err` mirror
Rust's `Result`, and `panic` marks an out-of-bounds `[0]` index. -/
inductive DResult (α : Type) where
  | ok : α → DResult α
  | err : CompressionError → DResult α
  | panic : DResult α
deriving DecidableEq, Repr

/-- `LzwCompressor { max_table_size: usize }`. -/
structure LzwCompressor where
  max_table_size : Nat
deriving DecidableEq, Repr

/-- Lookup in the encoder's dictionary (`HashMap::get` / `contains_key`). -/
def dictLookup (d : List (List Nat × Nat)) (key : List Nat) : Option Nat :=
  match d with
  | [] => none
  | (k, v) :: rest => if k = key then some v else dictLookup rest key

/-- The encoder's seeded dictionary: `dictionary.insert(vec![i], i)` for
`i` in `0..=255`. -/
def initEncDict : List (List Nat × Nat) :=
  (List.range 256).map (fun i => ([i], i))

/-- `usize::to_be_bytes` on the 64-bit target: eight big-endian bytes. -/
def usizeToBeBytes (n : Nat) : List Nat :=
  [n / 256 ^ 7 % 256, n / 256 ^ 6 % 256, n / 256 ^ 5 % 256, n / 256 ^ 4 % 256,
   n / 256 ^ 3 % 256, n / 256 ^ 2 % 256, n / 256 % 256, n % 256]

/-- The encoder's loop state: dictionary, current match `w`, `next_code`,
and the output accumulated in `result`. -/
structure EncState where
  dict : List (List Nat × Nat)
  w : List Nat
  next_code : Nat
  result : List Nat
deriving DecidableEq, Repr

/-- One iteration of the `for &k in data` loop of `compress`: form
`wk = w + [k]`; if `wk` is a dictionary key, extend the match; otherwise emit
the code of `w` (a missing `w` is the Compression error), insert `wk` while
`next_code < max_table_size`, and reset `w = [k]`. -/
def encStep (self : LzwCompressor) (s : EncState) (k : Nat) :
    Except CompressionError EncState :=
  if (dictLookup s.dict (s.w ++ [k])).isSome then
    Except.ok { s with w := s.w ++ [k] }
  else
    match dictLookup s.dict s.w with
    | none =>
        Except.error (CompressionError.Compression
          "Failed to retrieve code from dictionary")
    | some code =>
        if s.next_code < self.max_table_size then
          Except.ok ⟨(s.w ++ [k], s.next_code) :: s.dict, [k], s.next_code + 1,
            s.result ++ usizeToBeBytes code⟩
        else
          Except.ok ⟨s.dict, [k], s.next_code, s.result ++ usizeToBeBytes code⟩

/-- The whole `for &k in data` loop of `compress`. -/
def encRun (self : LzwCompressor) (s : EncState) :
    List Nat → Except CompressionError EncState
  | [] => Except.ok s
  | k :: rest =>
    match encStep self s k with
    | Except.ok s' => encRun self s' rest
    | Except.error e => Except.error e

/-- The initial encoder state: seeded dictionary, empty `w`, `next_code = 256`,
empty output. -/
def encInit : EncState := ⟨initEncDict, [], 256, []⟩

/-- `LzwCompressor::compress`: run the loop over `data`, then flush the final
non-empty match `w` (a missing final `w` is the Compression error). -/
def LzwCompressor.compress (self : LzwCompressor) (data : List Nat) :
    Except CompressionError (List Nat) :=
  match encRun self encInit data with
  | Except.error e => Except.error e
  | Except.ok s =>
    if s.w = [] then
      Except.ok s.result
    else
      match dictLookup s.dict s.w with
      | some code => Except.ok (s.result ++ usizeToBeBytes code)
      | none =>
          Except.error (CompressionError.Compression
            "Failed to retrieve final code from dictionary")

/-- The decoder's seeded dictionary: `dictionary.push(vec![i])` for
`i` in `0..=255`. -/
def initDecDict : List (List Nat) :=
  (List.range 256).map (fun i => [i])

/-- The decoder's loop state: dictionary, previous match `w`, and the output
accumulated in `result`. -/
structure DecState where
  dict : List (List Nat)
  w : List Nat
  result : List Nat
deriving DecidableEq, Repr

/-- Resolution of `entry` for a subsequent code `k` in `decompress`: an
existing dictionary index is used directly; otherwise `k == dictionary.len()`
reconstructs `w + w[0]` (indexing an empty `w` would abort); any other code is
the Decompression error. -/
def decEntry (s : DecState) (k : Nat) : DResult (List Nat) :=
  match s.dict.get? k with
  | some bytes => DResult.ok bytes
  | none =>
    if k = s.dict.length then
      match s.w with
      | [] => DResult.panic
      | w0 :: _ => DResult.ok (s.w ++ [w0])
    else
      DResult.err (CompressionError.Decompression "Invalid compressed code")

/-- One iteration of the `for chunk in iter` loop of `decompress` for an
already-assembled code `k`: resolve `entry`, extend the output with it, push
`w + entry[0]` while below `max_table_size` (indexing an empty `entry` would
abort), and set `w = entry`. -/
def decStep (self : LzwCompressor) (s : DecState) (k : Nat) : DResult DecState :=
  match decEntry s k with
  | DResult.err e => DResult.err e
  | DResult.panic => DResult.panic
  | DResult.ok entry =>
    if s.dict.length < self.max_table_size then
      match entry with
      | [] => DResult.panic
      | e0 :: _ => DResult.ok ⟨s.dict ++ [s.w ++ [e0]], entry, s.result ++ entry⟩
    else
      DResult.ok ⟨s.dict, entry, s.result ++ entry⟩

/-- The `for chunk in iter` loop of `decompress` over the remaining bytes:
each 2-byte chunk is a big-endian `u16` code; a final chunk of a single byte
is the `chunk.len() != 2` failure. -/
def decLoop (self : LzwCompressor) (s : DecState) : List Nat → DResult DecState
  | [] => DResult.ok s
  | [_] => DResult.err (CompressionError.Decompression "Invalid compressed data")
  | b0 :: b1 :: rest =>
    match decStep self s (b0 % 256 * 256 + b1 % 256) with
    | DResult.ok s' => decLoop self s' rest
    | DResult.err e => DResult.err e
    | DResult.panic => DResult.panic

/-- `LzwCompressor::decompress`: read the first 16-bit big-endian code, which
must index a seeded entry; seed `w` and the output with that entry; then run
the loop over the remaining 2-byte chunks.  An empty buffer or a lone first
byte is the missing/short first chunk failure. -/
def LzwCompressor.decompress (self : LzwCompressor) (data : List Nat) :
    DResult (List Nat) :=
  match data with
  | b0 :: b1 :: rest =>
    match initDecDict.get? (b0 % 256 * 256 + b1 % 256) with
    | some bytes =>
      match decLoop self ⟨initDecDict, bytes, bytes⟩ rest with
      | DResult.ok s => DResult.ok s.result
      | DResult.err e => DResult.err e
      | DResult.panic => DResult.panic
    | none =>
        DResult.err (CompressionError.Decompression "Invalid compressed code")
  | _ => DResult.err (CompressionError.Decompression "Invalid compressed data")

/-- An error `DResult` built by the `Decompression` constructor. -/
def isDecompressionError : DResult (List Nat) → Bool
  | DResult.err (CompressionError.Decompression _) => true
  | _ => false

/-! ### Helper lemmas -/

theorem dictLookup_isSome_cons {d : List (List Nat × Nat)} {key : List Nat}
    (h : (dictLookup d key).isSome) (k' : List Nat) (v' : Nat) :
    (dictLookup ((k', v') :: d) key).isSome := by
  simp only [dictLookup]
  split
  · rfl
  · exact h

theorem dictLookup_map_singleton (l : List Nat) (k : Nat) (hk : k ∈ l) :
    dictLookup (l.map fun i => ([i], i)) [k] = some k := by
  induction l with
  | nil => exact absurd hk (List.not_mem_nil k)
  | cons i tl ih =>
    rw [List.map_cons]
    simp only [dictLookup]
    by_cases h : i = k
    · subst h
      rw [if_pos rfl]
    · rw [if_neg (by simp [h])]
      rcases List.mem_cons.mp hk with h' | h'
      · exact absurd h'.symm h
      · exact ih h'

theorem initEncDict_lookup (k : Nat) (hk : k < 256) :
    dictLookup initEncDict [k] = some k :=
  dictLookup_map_singleton (List.range 256) k (List.mem_range.mpr hk)

/-- Encoder loop invariant: every single-byte sequence is a dictionary key,
and the current match `w` is either empty or itself a dictionary key. -/
def EncInv (s : EncState) : Prop :=
  (∀ k, k < 256 → (dictLookup s.dict [k]).isSome) ∧
  (s.w = [] ∨ (dictLookup s.dict s.w).isSome)

theorem encInit_inv : EncInv encInit := by
  constructor
  · intro k hk
    show (dictLookup initEncDict [k]).isSome
    rw [initEncDict_lookup k hk]
    rfl
  · exact Or.inl rfl

theorem encStep_ok (self : LzwCompressor) (s : EncState) (k : Nat)
    (hk : k < 256) (hs : EncInv s) :
    ∃ s', encStep self s k = Except.ok s' ∧ EncInv s' := by
  by_cases h1 : (dictLookup s.dict (s.w ++ [k])).isSome
  · refine ⟨{ s with w := s.w ++ [k] }, ?_, hs.1, Or.inr h1⟩
    simp [encStep, h1]
  · have hw : (dictLookup s.dict s.w).isSome := by
      rcases hs.2 with hw0 | hsome
      · exfalso
        apply h1
        rw [hw0, List.nil_append]
        exact hs.1 k hk
      · exact hsome
    obtain ⟨code, hcode⟩ := Option.isSome_iff_exists.mp hw
    by_cases h2 : s.next_code < self.max_table_size
    · refine ⟨⟨(s.w ++ [k], s.next_code) :: s.dict, [k], s.next_code + 1,
        s.result ++ usizeToBeBytes code⟩, ?_, ?_, ?_⟩
      · simp [encStep, h1, hcode, h2]
      · intro k' hk'
        exact dictLookup_isSome_cons (hs.1 k' hk') _ _
      · exact Or.inr (dictLookup_isSome_cons (hs.1 k hk) _ _)
    · refine ⟨⟨s.dict, [k], s.next_code, s.result ++ usizeToBeBytes code⟩,
        ?_, hs.1, Or.inr (hs.1 k hk)⟩
      simp [encStep, h1, hcode, h2]

theorem encRun_ok (self : LzwCompressor) :
    ∀ (data : List Nat) (s : EncState), (∀ b ∈ data, b < 256) → EncInv s →
      ∃ s', encRun self s data = Except.ok s' ∧ EncInv s'
  | [], s, _, hs => ⟨s, rfl, hs⟩
  | k :: rest, s, hdata, hs => by
    obtain ⟨s1, hstep, hs1⟩ :=
      encStep_ok self s k (hdata k (List.mem_cons_self k rest)) hs
    obtain ⟨s', hrun, hs'⟩ :=
      encRun_ok self rest s1 (fun b hb => hdata b (List.mem_cons_of_mem k hb)) hs1
    refine ⟨s', ?_, hs'⟩
    simp only [encRun]
    rw [hstep]
    exact hrun

/-- Decoder loop invariant: every dictionary entry and the previous match `w`
are non-empty byte sequences. -/
def DecInv (s : DecState) : Prop :=
  (∀ e ∈ s.dict, e ≠ []) ∧ s.w ≠ []

theorem initDecDict_entries_ne_nil : ∀ e ∈ initDecDict, e ≠ [] := by
  intro e he
  obtain ⟨i, _, rfl⟩ := List.mem_map.mp he
  simp

theorem decEntry_cases (s : DecState) (k : Nat) (hs : DecInv s) :
    (∃ entry, decEntry s k = DResult.ok entry ∧ entry ≠ []) ∨
    decEntry s k =
      DResult.err (CompressionError.Decompression "Invalid compressed code") := by
  cases hget : s.dict[k]? with
  | some bytes =>
    exact Or.inl ⟨bytes, by simp [decEntry, hget],
      hs.1 bytes (List.get?_mem ((List.get?_eq_getElem? s.dict k).trans hget))⟩
  | none =>
    by_cases hk : k = s.dict.length
    · cases hw : s.w with
      | nil => exact absurd hw hs.2
      | cons w0 wtl =>
        exact Or.inl ⟨(w0 :: wtl) ++ [w0], by simp [decEntry, hget, hk, hw], by simp⟩
    · exact Or.inr (by simp [decEntry, hget, hk])

theorem decStep_cases (self : LzwCompressor) (s : DecState) (k : Nat)
    (hs : DecInv s) :
    (∃ s', decStep self s k = DResult.ok s' ∧ DecInv s') ∨
    decStep self s k =
      DResult.err (CompressionError.Decompression "Invalid compressed code") := by
  rcases decEntry_cases s k hs with ⟨entry, hE, hne⟩ | hE
  · left
    cases entry with
    | nil => exact absurd rfl hne
    | cons e0 etl =>
      by_cases h2 : s.dict.length < self.max_table_size
      · refine ⟨⟨s.dict ++ [s.w ++ [e0]], e0 :: etl, s.result ++ (e0 :: etl)⟩,
          ?_, ?_, by simp⟩
        · simp [decStep, hE, h2]
        · intro e he
          rcases List.mem_append.mp he with h | h
          · exact hs.1 e h
          · rw [List.mem_singleton.mp h]
            simp
      · exact ⟨⟨s.dict, e0 :: etl, s.result ++ (e0 :: etl)⟩,
          by simp [decStep, hE, h2], hs.1, by simp⟩
  · right
    simp [decStep, hE]

theorem decLoop_cases (self : LzwCompressor) :
    ∀ (rest : List Nat) (s : DecState), DecInv s →
      (∃ s', decLoop self s rest = DResult.ok s' ∧ DecInv s') ∨
      (∃ msg, decLoop self s rest =
        DResult.err (CompressionError.Decompression msg))
  | [], s, hs => Or.inl ⟨s, rfl, hs⟩
  | [_], _, _ => Or.inr ⟨"Invalid compressed data", rfl⟩
  | b0 :: b1 :: rest, s, hs => by
    rcases decStep_cases self s (b0 % 256 * 256 + b1 % 256) hs with
      ⟨s1, hstep, hs1⟩ | hstep
    · rcases decLoop_cases self rest s1 hs1 with ⟨s', h', hs'⟩ | ⟨msg, h'⟩
      · refine Or.inl ⟨s', ?_, hs'⟩
        simp only [decLoop]
        rw [hstep]
        exact h'
      · refine Or.inr ⟨msg, ?_⟩
        simp only [decLoop]
        rw [hstep]
        exact h'
    · refine Or.inr ⟨"Invalid compressed code", ?_⟩
      simp only [decLoop]
      rw [hstep]

theorem decLoop_odd_not_ok (self : LzwCompressor) :
    ∀ (rest : List Nat) (s s' : DecState), rest.length % 2 = 1 →
      decLoop self s rest ≠ DResult.ok s'
  | [], _, _, h => by simp at h
  | [_], _, _, _ => by
    intro hok
    exact absurd hok (by simp [decLoop])
  | b0 :: b1 :: rest, s, s', h => by
    have h' : rest.length % 2 = 1 := by
      simp only [List.length_cons] at h
      omega
    intro hok
    simp only [decLoop] at hok
    cases hstep : decStep self s (b0 % 256 * 256 + b1 % 256) with
    | ok s1 =>
      rw [hstep] at hok
      exact decLoop_odd_not_ok self rest s1 s' h' hok
    | err e =>
      rw [hstep] at hok
      cases hok
    | panic =>
      rw [hstep] at hok
      cases hok

/-- Case analysis of a successful encoder step: either nothing was inserted
(dictionary and `next_code` unchanged), or the table was still below
`max_table_size` and exactly `wk` was inserted with code `next_code`. -/
theorem encStep_ok_cases (self : LzwCompressor) (s : EncState) (k : Nat)
    (s' : EncState) (h : encStep self s k = Except.ok s') :
    (s'.dict = s.dict ∧ s'.next_code = s.next_code) ∨
    (s.next_code < self.max_table_size ∧
      s'.dict = (s.w ++ [k], s.next_code) :: s.dict ∧
      s'.next_code = s.next_code + 1) := by
  unfold encStep at h
  split at h
  · injection h with h
    subst h
    exact Or.inl ⟨rfl, rfl⟩
  · split at h
    · cases h
    · split at h
      · injection h with h
        subst h
        rename_i hlt
        exact Or.inr ⟨hlt, rfl, rfl⟩
      · injection h with h
        subst h
        exact Or.inl ⟨rfl, rfl⟩

/-- Case analysis of a successful decoder step: either nothing was pushed, or
the table was still below `max_table_size` and exactly one entry was
appended. -/
theorem decStep_ok_cases (self : LzwCompressor) (s : DecState) (k : Nat)
    (s' : DecState) (h : decStep self s k = DResult.ok s') :
    s'.dict = s.dict ∨
    (s.dict.length < self.max_table_size ∧ ∃ e, s'.dict = s.dict ++ [e]) := by
  by_cases hlt : s.dict.length < self.max_table_size
  · unfold decStep at h
    split at h
    · cases h
    · cases h
    · rw [if_pos hlt] at h
      split at h
      · cases h
      · injection h with h
        subst h
        exact Or.inr ⟨hlt, _, rfl⟩
  · unfold decStep at h
    split at h
    · cases h
    · cases h
    · rw [if_neg hlt] at h
      injection h with h
      subst h
      exact Or.inl rfl

theorem encRun_next_code_le (self : LzwCompressor) :
    ∀ (data : List Nat) (s s' : EncState),
      s.next_code ≤ self.max_table_size →
      encRun self s data = Except.ok s' →
      s'.next_code ≤ self.max_table_size
  | [], s, s', hle, h => by
    injection h with h
    subst h
    exact hle
  | k :: rest, s, s', hle, h => by
    simp only [encRun] at h
    cases hstep : encStep self s k with
    | error e =>
      rw [hstep] at h
      cases h
    | ok s1 =>
      rw [hstep] at h
      have h1 := encStep_ok_cases self s k s1 hstep
      have hle1 : s1.next_code ≤ self.max_table_size := by
        rcases h1 with ⟨_, h2⟩ | ⟨h2, _, h3⟩ <;> omega
      exact encRun_next_code_le self rest s1 s' hle1 h

theorem decLoop_dict_length_le (self : LzwCompressor) :
    ∀ (rest : List Nat) (s s' : DecState),
      s.dict.length ≤ self.max_table_size →
      decLoop self s rest = DResult.ok s' →
      s'.dict.length ≤ self.max_table_size
  | [], s, s', hle, h => by
    injection h with h
    subst h
    exact hle
  | [_], _, _, _, h => by cases h
  | b0 :: b1 :: rest, s, s', hle, h => by
    simp only [decLoop] at h
    cases hstep : decStep self s (b0 % 256 * 256 + b1 % 256) with
    | ok s1 =>
      rw [hstep] at h
      have h1 := decStep_ok_cases self s (b0 % 256 * 256 + b1 % 256) s1 hstep
      have hle1 : s1.dict.length ≤ self.max_table_size := by
        rcases h1 with heq | ⟨hlt, e, heq⟩ <;>
          simp only [heq, List.length_append, List.length_cons,
            List.length_nil] <;> omega
      exact decLoop_dict_length_le self rest s1 s' hle1 h
    | err e =>
      rw [hstep] at h
      cases h
    | panic =>
      rw [hstep] at h
      cases h

end LZW

namespace LZW

/-! ### Claim theorems: framing, totality, encoder safety, capacity (C3, C5, C8, C10) -/

/-- C3: `decompress` rejects malformed framing: on any buffer of odd length
and on the empty buffer it returns a Decompression error (every failure of
`decompress` is returned as an error value carrying no output bytes). -/
theorem C3_malformed_framing_rejected (self : LzwCompressor) (data : List Nat)
    (h : data.length % 2 ≠ 0 ∨ data = []) :
    ∃ msg, self.decompress data =
      DResult.err (CompressionError.Decompression msg) := by
  match data with
  | [] => exact ⟨"Invalid compressed data", rfl⟩
  | [b] => exact ⟨"Invalid compressed data", rfl⟩
  | b0 :: b1 :: rest =>
    have hodd : rest.length % 2 = 1 := by
      rcases h with h | h
      · simp only [List.length_cons] at h
        omega
      · cases h
    cases hget : initDecDict[b0 % 256 * 256 + b1 % 256]? with
    | none =>
      exact ⟨"Invalid compressed code", by simp [LzwCompressor.decompress, hget]⟩
    | some bytes =>
      have hinv : DecInv ⟨initDecDict, bytes, bytes⟩ := by
        refine ⟨initDecDict_entries_ne_nil, ?_⟩
        exact initDecDict_entries_ne_nil bytes
          (List.get?_mem ((List.get?_eq_getElem? initDecDict _).trans hget))
      rcases decLoop_cases self rest ⟨initDecDict, bytes, bytes⟩ hinv with
        ⟨s', hloop, _⟩ | ⟨msg, hloop⟩
      · exact absurd hloop
          (decLoop_odd_not_ok self rest ⟨initDecDict, bytes, bytes⟩ s' hodd)
      · exact ⟨msg, by simp [LzwCompressor.decompress, hget, hloop]⟩

/-- Witness for C3: the odd-length buffer `[0, 0, 0]` and the empty buffer
are both rejected. -/
theorem C3_witness : ((([0, 0, 0] : List Nat).length % 2 ≠ 0 ∨ ([0, 0, 0] : List Nat) = []) ∧
      ∃ msg, (LzwCompressor.mk 4096).decompress [0, 0, 0] =
        DResult.err (CompressionError.Decompression msg)) ∧
    ((([] : List Nat).length % 2 ≠ 0 ∨ ([] : List Nat) = []) ∧
      ∃ msg, (LzwCompressor.mk 4096).decompress [] =
        DResult.err (CompressionError.Decompression msg)) :=
  ⟨⟨by decide, C3_malformed_framing_rejected (LzwCompressor.mk 4096) [0, 0, 0]
      (by decide)⟩,
   ⟨by decide, C3_malformed_framing_rejected (LzwCompressor.mk 4096) []
      (by decide)⟩⟩

/-- C5: the Compression error branch of `compress` is unreachable: for every
byte buffer (each element below 256, as guaranteed by `u8`) and every
configuration, the `w` looked up at each emission step is present in the
dictionary, and `compress` returns `Ok`. -/
theorem C5_compress_never_fails (self : LzwCompressor) (data : List Nat)
    (hdata : ∀ b ∈ data, b < 256) :
    ∃ out, self.compress data = Except.ok out := by
  obtain ⟨s, hrun, hs⟩ := encRun_ok self data encInit hdata encInit_inv
  unfold LzwCompressor.compress
  rw [hrun]
  by_cases hw : s.w = []
  · exact ⟨s.result, by simp [hw]⟩
  · rcases hs.2 with h | hsome
    · exact absurd h hw
    · obtain ⟨code, hcode⟩ := Option.isSome_iff_exists.mp hsome
      exact ⟨s.result ++ usizeToBeBytes code, by simp [hw, hcode]⟩

set_option maxRecDepth 100000 in
/-- Witness for C5 at a concrete buffer and configuration. -/
theorem C5_witness : (∀ b ∈ ([97, 97, 97, 98] : List Nat), b < 256) ∧
    ∃ out, (LzwCompressor.mk 4096).compress [97, 97, 97, 98] = Except.ok out :=
  ⟨by decide,
   C5_compress_never_fails (LzwCompressor.mk 4096) [97, 97, 97, 98] (by decide)⟩

/-- C8: capacity freeze on both sides.  A successful encoder step at
`next_code ≥ max_table_size` leaves the dictionary and `next_code` unchanged,
and a successful decoder step at a full table leaves the dictionary unchanged;
every successful step grows `next_code` monotonically but never past
`max next_code max_table_size`, and the decoder dictionary only ever grows by
appending; consequently, over any whole run with `max_table_size ≥ 256`,
`next_code` never passes `max_table_size` on the encoder side and the decoder
dictionary length never passes `max_table_size` once below it. -/
theorem C8_capacity_freeze (self : LzwCompressor) :
    (∀ s k s', self.max_table_size ≤ s.next_code →
      encStep self s k = Except.ok s' →
      s'.dict = s.dict ∧ s'.next_code = s.next_code) ∧
    (∀ s k s', self.max_table_size ≤ s.dict.length →
      decStep self s k = DResult.ok s' → s'.dict = s.dict) ∧
    (∀ s k s', encStep self s k = Except.ok s' →
      s.next_code ≤ s'.next_code ∧
      s'.next_code ≤ max s.next_code self.max_table_size) ∧
    (∀ s k s', decStep self s k = DResult.ok s' →
      (s'.dict = s.dict ∨ ∃ e, s'.dict = s.dict ++ [e]) ∧
      s'.dict.length ≤ max s.dict.length self.max_table_size) ∧
    (∀ data s', 256 ≤ self.max_table_size →
      encRun self encInit data = Except.ok s' →
      s'.next_code ≤ self.max_table_size) ∧
    (∀ rest s s', s.dict.length ≤ self.max_table_size →
      decLoop self s rest = DResult.ok s' →
      s'.dict.length ≤ self.max_table_size) := by
  refine ⟨?_, ?_, ?_, ?_, ?_, ?_⟩
  · intro s k s' hfull h
    rcases encStep_ok_cases self s k s' h with ⟨h1, h2⟩ | ⟨h1, _, _⟩
    · exact ⟨h1, h2⟩
    · omega
  · intro s k s' hfull h
    rcases decStep_ok_cases self s k s' h with h1 | ⟨h1, _, _⟩
    · exact h1
    · omega
  · intro s k s' h
    rcases encStep_ok_cases self s k s' h with ⟨_, h2⟩ | ⟨h1, _, h2⟩ <;> omega
  · intro s k s' h
    rcases decStep_ok_cases self s k s' h with h1 | ⟨h1, e, h2⟩
    · refine ⟨Or.inl h1, ?_⟩
      rw [h1]
      exact Nat.le_max_left _ _
    · refine ⟨Or.inr ⟨e, h2⟩, ?_⟩
      rw [h2]
      simp only [List.length_append, List.length_cons, List.length_nil]
      omega
  · intro data s' hge h
    exact encRun_next_code_le self data encInit s' (by simpa [encInit] using hge) h
  · intro rest s s' hle h
    exact decLoop_dict_length_le self rest s s' hle h

/-- Witness for C8: with `max_table_size = 1` and a one-entry decoder
dictionary the table is full, and a successful step leaves it unchanged. -/
theorem C8_witness : ((LzwCompressor.mk 1).max_table_size ≤ ([[0]] : List (List Nat)).length) ∧
    (DecState.mk [[0]] [0] [0]).dict = (DecState.mk [[0]] [0] []).dict :=
  ⟨by decide,
   (C8_capacity_freeze (LzwCompressor.mk 1)).2.1 ⟨[[0]], [0], []⟩ 0 ⟨[[0]], [0], [0]⟩
     (by decide) (by decide)⟩

/-- C10: `decompress` is total and free of out-of-bounds indexing: every
dictionary entry and every value taken by `w` stays non-empty, the modelled
`panic` outcome never occurs, and `decompress` always returns either `Ok` or
a Decompression error. -/
theorem C10_decompress_total (self : LzwCompressor) (data : List Nat) :
    (∃ out, self.decompress data = DResult.ok out) ∨
    (∃ msg, self.decompress data =
      DResult.err (CompressionError.Decompression msg)) := by
  match data with
  | [] => exact Or.inr ⟨"Invalid compressed data", rfl⟩
  | [b] => exact Or.inr ⟨"Invalid compressed data", rfl⟩
  | b0 :: b1 :: rest =>
    cases hget : initDecDict[b0 % 256 * 256 + b1 % 256]? with
    | none =>
      exact Or.inr ⟨"Invalid compressed code",
        by simp [LzwCompressor.decompress, hget]⟩
    | some bytes =>
      have hinv : DecInv ⟨initDecDict, bytes, bytes⟩ := by
        refine ⟨initDecDict_entries_ne_nil, ?_⟩
        exact initDecDict_entries_ne_nil bytes
          (List.get?_mem ((List.get?_eq_getElem? initDecDict _).trans hget))
      rcases decLoop_cases self rest ⟨initDecDict, bytes, bytes⟩ hinv with
        ⟨s', hloop, _⟩ | ⟨msg, hloop⟩
      · exact Or.inl ⟨s'.result, by simp [LzwCompressor.decompress, hget, hloop]⟩
      · exact Or.inr ⟨msg, by simp [LzwCompressor.decompress, hget, hloop]⟩

end LZW

namespace LZW

/-! ### Claim theorems: stream format and round-trip (C1, C2) -/

set_option maxRecDepth 100000 in
/-- C1 (failing-input evaluation): the round-trip claim
`decompress (compress b) = Ok b` fails on the code.  `compress` serializes
each code with `usize::to_be_bytes` (8 bytes) while `decompress` reads 2-byte
chunks, so the one-byte buffer `[0x61]` compresses to 8 bytes that decode to
`[0, 0, 0, 0x61]`; and the empty buffer compresses to the empty stream, which
`decompress` rejects outright although the repository's own test
`test_lzw_compressor_empty_data` expects the round-trip to succeed. -/
theorem C1_roundtrip_fails : (LzwCompressor.mk 4096).compress [97] = Except.ok [0, 0, 0, 0, 0, 0, 0, 97] ∧
    (LzwCompressor.mk 4096).decompress [0, 0, 0, 0, 0, 0, 0, 97] =
      DResult.ok [0, 0, 0, 97] ∧
    (LzwCompressor.mk 4096).compress [] = Except.ok [] ∧
    (LzwCompressor.mk 4096).decompress [] =
      DResult.err (CompressionError.Decompression "Invalid compressed data") := by
  refine ⟨?_, ?_, ?_, ?_⟩ <;> rfl

/-- C2 (failing-input evaluation): the claim that `compress` emits exactly 2
bytes per code fails on the code: each emitted code contributes the 8 bytes of
`usize::to_be_bytes`, so compressing the one-byte buffer `[0]` (one emitted
code) yields 8 output bytes, not 2. -/
theorem C2_eight_bytes_per_code : (LzwCompressor.mk 4096).compress [0] = Except.ok [0, 0, 0, 0, 0, 0, 0, 0] ∧
    (∀ code : Nat, (usizeToBeBytes code).length = 8) :=
  ⟨by rfl, fun _ => rfl⟩

/-! ### Claim theorems: determinism (C9) -/

/-- C9: `compress` is a pure function of the input buffer and of the
`max_table_size` configuration: two compressors with equal configuration
produce identical output on the same buffer.  (The source's `HashMap` is only
ever queried by key and never iterated, so its internal order cannot leak into
the output; the embedding therefore models it by an association list, under
which compression is literally a function.) -/
theorem C9_compress_deterministic (c1 c2 : LzwCompressor) (data : List Nat)
    (h : c1.max_table_size = c2.max_table_size) :
    c1.compress data = c2.compress data := by
  cases c1
  cases c2
  cases h
  rfl

/-- Witness for C9 at a concrete configuration and buffer. -/
theorem C9_witness : (LzwCompressor.mk 4096).max_table_size = (LzwCompressor.mk 4096).max_table_size ∧
    (LzwCompressor.mk 4096).compress [97, 98] = (LzwCompressor.mk 4096).compress [97, 98] :=
  ⟨rfl, C9_compress_deterministic (LzwCompressor.mk 4096) (LzwCompressor.mk 4096) [97, 98] rfl⟩

/-! ### Claim theorems: decode special case and corrupt-code rejection (C6, C7) -/

/-- C6: in a `decompress` step, when the subsequent code `k` is not an
existing dictionary index but equals the current dictionary length, the entry
is reconstructed as `w + w[0]` (the previous match extended by its own first
byte), that entry is appended to the output, and it becomes the new `w`. -/
theorem C6_special_case_reconstruction (self : LzwCompressor)
    (dict : List (List Nat)) (w0 : Nat) (wtl res : List Nat) (k : Nat)
    (hget : dict.get? k = none) (hk : k = dict.length) :
    ∃ s', decStep self ⟨dict, w0 :: wtl, res⟩ k = DResult.ok s' ∧
      s'.result = res ++ ((w0 :: wtl) ++ [w0]) ∧
      s'.w = (w0 :: wtl) ++ [w0] := by
  have hentry : decEntry ⟨dict, w0 :: wtl, res⟩ k =
      DResult.ok ((w0 :: wtl) ++ [w0]) := by
    simp [decEntry, hget, hk]
  by_cases h2 : dict.length < self.max_table_size
  · refine ⟨⟨dict ++ [(w0 :: wtl) ++ [w0]], (w0 :: wtl) ++ [w0],
      res ++ ((w0 :: wtl) ++ [w0])⟩, ?_, rfl, rfl⟩
    simp [decStep, hentry, h2]
  · refine ⟨⟨dict, (w0 :: wtl) ++ [w0], res ++ ((w0 :: wtl) ++ [w0])⟩, ?_, rfl, rfl⟩
    simp [decStep, hentry, h2]

/-- Witness for C6: code 1 on the one-entry dictionary `[[5]]` with `w = [7]`
reconstructs and emits `[7, 7]`. -/
theorem C6_witness : ((([[5]] : List (List Nat)).get? 1 = none) ∧ 1 = ([[5]] : List (List Nat)).length) ∧
    ∃ s', decStep (LzwCompressor.mk 4096) ⟨[[5]], [7], []⟩ 1 = DResult.ok s' ∧
      s'.result = [] ++ (([7] : List Nat) ++ [7]) ∧ s'.w = ([7] : List Nat) ++ [7] :=
  ⟨⟨rfl, rfl⟩, C6_special_case_reconstruction (LzwCompressor.mk 4096) [[5]] 7 [] [] 1 rfl rfl⟩

/-- C7: in a `decompress` step, a subsequent code `k` strictly greater than
the current dictionary length (neither an existing index nor equal to the
length) is rejected with the Decompression error. -/
theorem C7_code_beyond_table_rejected (self : LzwCompressor) (s : DecState)
    (k : Nat) (h : s.dict.length < k) :
    decStep self s k =
      DResult.err (CompressionError.Decompression "Invalid compressed code") := by
  have hget : s.dict[k]? = none := List.getElem?_eq_none (Nat.le_of_lt h)
  have hne : k ≠ s.dict.length := Nat.ne_of_gt h
  simp [decStep, decEntry, hget, hne]

/-- Witness for C7: code 2 on the one-entry dictionary `[[5]]`. -/
theorem C7_witness : (([[5]] : List (List Nat)).length < 2) ∧
    decStep (LzwCompressor.mk 4096) ⟨[[5]], [7], []⟩ 2 =
      DResult.err (CompressionError.Decompression "Invalid compressed code") :=
  ⟨by decide, C7_code_beyond_table_rejected (LzwCompressor.mk 4096) ⟨[[5]], [7], []⟩ 2 (by decide)⟩

/-! ### Claim theorems: code 256 on a freshly seeded table (C4) -/

set_option maxRecDepth 100000 in
/-- C4 (counterexample): the claim says every stream in which code 256 is read
while the dictionary still holds only the 256 seeded entries fails, but when
256 arrives as a *subsequent* code it equals the current dictionary length and
is handled by the `w + w[0]` special case: the stream `[0x00, 0x61, 0x01, 0x00]`
(codes 97 then 256, dictionary still at 256 entries when 256 is read) decodes
successfully to `[97, 97, 97]`. -/
theorem C4_counterexample : (LzwCompressor.mk 4096).decompress [0, 97, 1, 0] = DResult.ok [97, 97, 97] := by
  rfl

/-- C4 (amended): a code one past the freshly seeded table fails only in the
*first*-code position, where no special case exists: for every stream whose
first 2-byte big-endian chunk encodes a code `≥ 256` (e.g. code 256 itself),
`decompress` fails with the Decompression error, whatever follows. -/
theorem C4_first_code_past_table_rejected (self : LzwCompressor)
    (b0 b1 : Nat) (rest : List Nat) (h : 256 ≤ b0 % 256 * 256 + b1 % 256) :
    self.decompress (b0 :: b1 :: rest) =
      DResult.err (CompressionError.Decompression "Invalid compressed code") := by
  have hlen : initDecDict.length = 256 := by
    simp [initDecDict]
  have hget : initDecDict[b0 % 256 * 256 + b1 % 256]? = none :=
    List.getElem?_eq_none (by rw [hlen]; exact h)
  simp [LzwCompressor.decompress, hget]

/-- Witness for C4's amended theorem: the two-byte stream `[0x01, 0x00]`
(first code 256) is rejected. -/
theorem C4_witness : (256 ≤ 1 % 256 * 256 + 0 % 256) ∧
    (LzwCompressor.mk 4096).decompress [1, 0] =
      DResult.err (CompressionError.Decompression "Invalid compressed code") :=
  ⟨by decide, C4_first_code_past_table_rejected (LzwCompressor.mk 4096) 1 0 [] (by decide)⟩

end LZW
